import Mathlib

/-!
Verification of the spike-decoding, feedback-raster and neuromodulation
algorithms of the `ab_sdk` Python package, as a shallow embedding in Lean 4.

Python floats are modelled as rationals (`ℚ`): every operation the embedded
code performs (+, *, /, comparisons, abs, min/max) is exact on the inputs the
theorems below evaluate, so the control flow of the model coincides with the
control flow of the source on those inputs.

Python's `abs`, `max`, `min` builtins are modelled by `pyabs`, `qmax`, `qmin`
(explicit `if` forms, matching the builtins' tie-breaking), and the source's
use of the `random` module is modelled by explicit draw streams `Nat → ℚ`:
a value in `[0,1)` per call of `random()`, indexed by the number of preceding
calls in the same top-level invocation.
-/

/-- Model of Python's builtin `abs` on floats. -/
def pyabs (q : ℚ) : ℚ := if q < 0 then -q else q

/-- Model of Python's builtin `max(a, b)` (returns `a` on ties). -/
def qmax (a b : ℚ) : ℚ := if b ≤ a then a else b

/-- Model of Python's builtin `min(a, b)` (returns `a` on ties). -/
def qmin (a b : ℚ) : ℚ := if a ≤ b then a else b

theorem pyabs_eq_abs (q : ℚ) : pyabs q = |q| := by
  unfold pyabs
  rcases lt_or_ge q 0 with h | h
  · rw [if_pos h, abs_of_neg h]
  · rw [if_neg (not_lt.mpr h), abs_of_nonneg h]

theorem pyabs_nonneg (q : ℚ) : 0 ≤ pyabs q := by
  rw [pyabs_eq_abs]; exact abs_nonneg q

/-- Model of Python's `str.strip()` (whitespace removal at both ends). -/
def pystrip (s : String) : String :=
  ⟨((s.data.dropWhile Char.isWhitespace).reverse.dropWhile Char.isWhitespace).reverse⟩

/-! ## `ab_sdk/plugins/decoder.py`: data model -/

/-- `MappingEntry` dataclass from `ab_sdk/plugins/decoder.py`. -/
structure MappingEntry where
  node_id : String
  channel : String
  scheme : String := "bipolarSplit"
  per_step_max : ℚ := 1/100
  gain : ℚ := 1
  deadzone : ℚ := 0
  min_step : ℚ := 0
  invert : Bool := false
  threshold : Option ℤ := none
  clamp : Option (ℚ × ℚ) := none
deriving DecidableEq

/-- A streamed output row `{"t": ..., "id": ..., "bits": ...}`.
`t = none` models a `"t"` value on which `int(...)` raises (unparsable).
`id = ""` models a missing/falsy `"id"` (the source applies `str(... or "")`).
`bits = none` models a `"bits"` value that is not a list; an inner `none`
models a list element on which `int(...)` raises. -/
structure Row where
  t : Option ℤ
  id : String
  bits : Option (List (Option ℤ))
deriving DecidableEq

/-- One decoded command `{"t": ..., "deltas": {...}}`; the `deltas` dict is
modelled as an insertion-ordered association list with unique keys. -/
structure Command where
  t : ℤ
  deltas : List (String × ℚ)
deriving DecidableEq

/-- `_clamp` from `ab_sdk/plugins/decoder.py`:
`lo if x < lo else hi if x > hi else x`. -/
def pyclamp (x lo hi : ℚ) : ℚ := if x < lo then lo else if x > hi then hi else x

/-- `_as_bits`: `None` unless the value is a list; elements coerce through
`int(b)` to `1` if non-zero, `0` if zero or unconvertible. -/
def as_bits : Option (List (Option ℤ)) → Option (List ℤ)
  | none => none
  | some l => some (l.map (fun b => match b with
      | some v => if v ≠ 0 then 1 else 0
      | none => 0))

/-! ## Schemes: bits -> scalar -/

/-- `_bipolar_split`: sum of the first half minus the sum of the
second half (`bits[half:half*2]`), `0.0` when fewer than two bits. -/
def bipolar_split (bits : List ℤ) : ℚ :=
  let n := bits.length
  if n < 2 then 0
  else
    let half := n / 2
    if half ≤ 0 then 0
    else
      let pos := ((bits.take half).sum : ℤ)
      let neg := (((bits.drop half).take half).sum : ℤ)
      ((pos - neg : ℤ) : ℚ)

/-- `_addition`: sum of the bits, `0.0` on the empty list. -/
def addition (bits : List ℤ) : ℚ :=
  if bits.length ≤ 0 then 0 else ((bits.sum : ℤ) : ℚ)

/-- `_boolean_threshold`: `1.0` iff the spike count reaches the threshold
clamped into `[1, n]`; `0.0` on the empty list. -/
def boolean_threshold (bits : List ℤ) (threshold : ℤ) : ℚ :=
  let n := bits.length
  if n ≤ 0 then 0
  else
    let thr := if threshold < 1 then 1 else if threshold > (n : ℤ) then (n : ℤ) else threshold
    if (bits.sum : ℤ) ≥ thr then 1 else 0

/-- `_bipolar_scalar`: `+1` if the first half outweighs the second,
`-1` if it is outweighed, `0` on a tie or fewer than two bits. -/
def bipolar_scalar (bits : List ℤ) : ℚ :=
  let n := bits.length
  if n < 2 then 0
  else
    let half := n / 2
    if half ≤ 0 then 0
    else
      let pos := ((bits.take half).sum : ℤ)
      let neg := (((bits.drop half).take half).sum : ℤ)
      if pos > neg then 1
      else if neg > pos then -1
      else 0

/-- `_compute_value`: dispatch on the (stripped, defaulted) scheme name;
unknown schemes yield `0.0`. -/
def compute_value (bits : List ℤ) (entry : MappingEntry) : ℚ :=
  let scheme := pystrip (if entry.scheme = "" then "bipolarSplit" else entry.scheme)
  if scheme = "bipolarSplit" then bipolar_split bits
  else if scheme = "addition" then addition bits
  else if scheme = "booleanThreshold" then
    let thr := match entry.threshold with
      | some t => t
      | none => max 1 ((bits.length : ℤ) / 2)
    boolean_threshold bits thr
  else if scheme = "bipolarScalar" then bipolar_scalar bits
  else 0

/-- Applies the optional post-scale clamp (the source's
`entry.clamp is not None and ... len == 2` guard collapses onto the
`Option (ℚ × ℚ)` model). -/
def applyClamp (c : Option (ℚ × ℚ)) (d : ℚ) : ℚ :=
  match c with
  | some p => pyclamp d p.1 p.2
  | none => d

/-- `_value_to_delta`: invert, scale, deadzone-suppress (early return),
min-step floor, then optional clamp.  The Python truthiness tests
`entry.deadzone and ...` / `entry.min_step and ...` are `≠ 0` tests. -/
def value_to_delta (value : ℚ) (entry : MappingEntry) : ℚ :=
  let value := if entry.invert then -value else value
  let delta := value * entry.per_step_max * entry.gain
  if entry.deadzone ≠ 0 ∧ pyabs delta < entry.deadzone then 0
  else
    let delta := if entry.min_step ≠ 0 ∧ 0 < pyabs delta ∧ pyabs delta < entry.min_step then
        (if delta > 0 then entry.min_step else -entry.min_step)
      else delta
    applyClamp entry.clamp delta

/-! ## Mapping normalization -/

/-- The `"clamp"`/`"limits"` value of a loosely-typed mapping record:
a `{"min": lo, "max": hi}` dict, a two-element list/tuple, or some other
(truthy) value that parses to no clamp. -/
inductive ClampVal where
  | mm (lo hi : ℚ)
  | two (lo hi : ℚ)
  | other
deriving DecidableEq

/-- A loosely-typed dict record accepted by `normalize_mapping`.  Every field
is optional; `none` models an absent (or falsy, where the source tests
truthiness) key. -/
structure RawMapping where
  node_id : Option String := none
  nodeId : Option String := none
  channel : Option String := none
  controllerChannel : Option String := none
  scheme : Option String := none
  per_step_max : Option ℚ := none
  perStepMax : Option ℚ := none
  perStepMaxRad : Option ℚ := none
  gain : Option ℚ := none
  deadzone : Option ℚ := none
  min_step : Option ℚ := none
  minStep : Option ℚ := none
  minStepRad : Option ℚ := none
  invert : Option Bool := none
  threshold : Option ℤ := none
  clamp : Option ClampVal := none
  limits : Option ClampVal := none
deriving DecidableEq

/-- An element of the heterogeneous `mapping` argument: an already-typed
`MappingEntry`, a dict record, or anything else (skipped). -/
inductive MappingInput where
  | typed (e : MappingEntry)
  | record (m : RawMapping)
  | other
deriving DecidableEq

/-- Python `or`-chaining on optional strings: an empty string is falsy. -/
def truthyStr : Option String → Option String
  | some "" => none
  | x => x

/-- `str(m.get("node_id") or m.get("nodeId") or "")`. -/
def resolve_node_id (m : RawMapping) : String :=
  ((truthyStr m.node_id).orElse (fun _ => truthyStr m.nodeId)).getD ""

/-- `str(m.get("channel") or m.get("controllerChannel") or "")`. -/
def resolve_channel (m : RawMapping) : String :=
  ((truthyStr m.channel).orElse (fun _ => truthyStr m.controllerChannel)).getD ""

/-- `clamp_val = m.get("clamp") or m.get("limits")`, then parsed as a
`{"min","max"}` dict or a 2-element sequence, else `None`. -/
def resolve_clamp (m : RawMapping) : Option (ℚ × ℚ) :=
  match (m.clamp).orElse (fun _ => m.limits) with
  | some (.mm lo hi) => some (lo, hi)
  | some (.two lo hi) => some (lo, hi)
  | some .other => none
  | none => none

/-- One iteration of the `normalize_mapping` loop: `some` the appended entry
or `none` when the item is skipped. -/
def normalize_item : MappingInput → Option MappingEntry
  | .typed e => some e
  | .other => none
  | .record m =>
      let node_id := resolve_node_id m
      let channel := resolve_channel m
      if node_id = "" ∨ channel = "" then none
      else some {
        node_id := node_id
        channel := channel
        scheme := (truthyStr m.scheme).getD "bipolarSplit"
        per_step_max := match m.per_step_max with
          | some v => v
          | none => match m.perStepMax with
            | some v => v
            | none => m.perStepMaxRad.getD (1/100)
        gain := m.gain.getD 1
        deadzone := m.deadzone.getD 0
        min_step := match m.min_step with
          | some v => v
          | none => match m.minStep with
            | some v => v
            | none => m.minStepRad.getD 0
        invert := m.invert.getD false
        threshold := m.threshold
        clamp := resolve_clamp m }

/-- `normalize_mapping` from `ab_sdk/plugins/decoder.py`. -/
def normalize_mapping (mapping : List MappingInput) : List MappingEntry :=
  mapping.filterMap normalize_item

/-! ## Stream decoder -/

/-- `deltas[channel] = deltas.get(channel, 0.0) + delta` with Python-dict
semantics: an existing key keeps its position, a new key is appended. -/
def dict_add (ds : List (String × ℚ)) (c : String) (v : ℚ) : List (String × ℚ) :=
  if ds.any (fun p => p.1 == c) then
    ds.map (fun p => if p.1 == c then (p.1, p.2 + v) else p)
  else ds ++ [(c, v)]

/-- The ascending list of distinct parsable timesteps of `rows`
(`sorted(by_t.keys())`). -/
def timesteps (rows : List Row) : List ℤ :=
  ((rows.filterMap Row.t).dedup).insertionSort (· ≤ ·)

/-- The body of the `for entry in entries` loop of `decode_stream_rows`:
skip zero deltas, accumulate the rest into the dict. -/
def entry_step (bits : List ℤ) (ds2 : List (String × ℚ)) (e : MappingEntry) :
    List (String × ℚ) :=
  let delta := value_to_delta (compute_value bits e) e
  if delta = 0 then ds2 else dict_add ds2 e.channel delta

/-- The body of the `for r in by_t[t]` loop of `decode_stream_rows`: skip
rows with a falsy id, no matching entries, or non-list bits. -/
def row_step (mp : List MappingEntry) (ds : List (String × ℚ)) (r : Row) :
    List (String × ℚ) :=
  if r.id = "" then ds
  else
    let entries := mp.filter (fun e => e.node_id == r.id)
    if entries.isEmpty then ds
    else
      match as_bits r.bits with
      | none => ds
      | some bits => entries.foldl (entry_step bits) ds

/-- The per-timestep inner loops of `decode_stream_rows`: fold the rows of
one timestep (in arrival order) into the `deltas` dict. -/
def deltas_at (mp : List MappingEntry) (rs : List Row) : List (String × ℚ) :=
  rs.foldl (row_step mp) []

/-- `decode_stream_rows` from `ab_sdk/plugins/decoder.py`: group rows by
parsable `t`, and per ascending timestep accumulate the channel deltas. -/
def decode_stream_rows (rows : List Row) (mapping : List MappingInput) : List Command :=
  let mp := normalize_mapping mapping
  (timesteps rows).map (fun t =>
    { t := t, deltas := deltas_at mp (rows.filter (fun r => r.t == some t)) })

/-- The (channel, delta) contributions of one row, in entry order: empty when
the id is falsy, the bits are not a list, or no entry matches the id. -/
def row_contribs (mp : List MappingEntry) (r : Row) : List (String × ℚ) :=
  if r.id = "" then []
  else
    let entries := mp.filter (fun e => e.node_id == r.id)
    match as_bits r.bits with
    | none => []
    | some bits => entries.map (fun e => (e.channel, value_to_delta (compute_value bits e) e))

/-- All (channel, delta) contributions of a row list, in traversal order. -/
def contribs (mp : List MappingEntry) : List Row → List (String × ℚ)
  | [] => []
  | r :: rs => row_contribs mp r ++ contribs mp rs

/-- Folding a contribution list into a deltas dict, skipping zero deltas. -/
def fold_contribs (ds : List (String × ℚ)) (l : List (String × ℚ)) : List (String × ℚ) :=
  l.foldl (fun ds2 p => if p.2 = 0 then ds2 else dict_add ds2 p.1 p.2) ds

/-! ## `ab_sdk/utils/feedback.py`: feedback raster builder

The source builds `rng = random.Random(seed)` and calls `rng.random()` once
per population slot of every timestep whose clamped deviation magnitude
exceeds the dead zone.  The generator is modelled by an explicit draw stream
`rng : Nat → ℚ` (draw `k` is the value of the `k`-th `rng.random()` call of
this invocation); `build_feedback_raster_seeded` below models the seeded
construction of that stream. -/

/-- The inner `for i in range(N)` loop: starting at draw index `k` and raster
position `pos`, write `sign` wherever the draw is below `prob`. -/
def raster_fill (rng : Nat → ℚ) (prob sign : ℚ) : Nat → Nat → Nat → List ℚ → List ℚ × Nat
  | k, _, 0, r => (r, k)
  | k, pos, n + 1, r =>
      let r2 := if rng k < prob then r.set pos sign else r
      raster_fill rng prob sign (k + 1) (pos + 1) n r2

/-- The outer `for t in range(T)` loop of `build_feedback_raster`: clamp the
deviation, skip the timestep when its magnitude is within the dead zone,
otherwise spike each of its `N` slots with probability `prob`. -/
def raster_steps (rng : Nat → ℚ) (N : Nat) (dead_zone : ℚ) :
    List ℚ → Nat → Nat → List ℚ → List ℚ
  | [], _, _, r => r
  | d :: ds, t, k, r =>
      let dev := qmax (-1) (qmin 1 d)
      let magnitude := pyabs dev
      if magnitude ≤ dead_zone then raster_steps rng N dead_zone ds (t + 1) k r
      else
        let sign : ℚ := if dev ≥ 0 then 1 else -1
        let prob := (magnitude - dead_zone) / qmax (1/1000000000) (1 - dead_zone)
        let fr := raster_fill rng prob sign k (t * N) N r
        raster_steps rng N dead_zone ds (t + 1) fr.2 fr.1

/-- `build_feedback_raster` from `ab_sdk/utils/feedback.py`, over an explicit
draw stream.  `outcome` is accepted and ignored, as in the source.  A baseline
of the wrong length raises `ValueError`, modelled as `.error`. -/
def build_feedback_raster (rng : Nat → ℚ) (deviations : List ℚ) (N : Nat)
    (baseline : Option (List ℚ)) (outcome : ℚ) (dead_zone : ℚ) :
    Except String (List ℚ) :=
  let T := deviations.length
  match baseline with
  | some b =>
      if b.length ≠ T * N then .error "baseline length does not match gamma * N"
      else .ok (raster_steps rng N dead_zone deviations 0 0 b)
  | none => .ok (raster_steps rng N dead_zone deviations 0 0 (List.replicate (T * N) 0))

/-- Models `rng = random.Random(seed)`: with a concrete seed the draw stream
is a fixed function `mk seed` of that seed alone; with `seed=None` the stream
comes from OS entropy, modelled by the ambient `entropy` stream. -/
def build_feedback_raster_seeded (mk : Int → Nat → ℚ) (entropy : Nat → ℚ)
    (seed : Option Int) (deviations : List ℚ) (N : Nat)
    (baseline : Option (List ℚ)) (outcome : ℚ) (dead_zone : ℚ) :
    Except String (List ℚ) :=
  build_feedback_raster
    (match seed with | some s => mk s | none => entropy)
    deviations N baseline outcome dead_zone

/-! ## `ab_sdk/utils/astro.py`: astrocyte modulation

The source draws noise with `from random import random as _rand` — the
process-global generator, with no seed parameter.  The global generator is
modelled by an explicit ambient draw stream `rng : Nat → ℚ` (draw `k` is the
value of the `k`-th `_rand()` call made during the invocation).  Python's
float `**` (used for `panic_exponent`/`mix_exponent`, which may be non-integral)
is abstracted as an explicit function argument `fpow`; `pypow` below is the
concrete model used by closed statements, which only ever evaluate `fpow`
where its value is exact or multiplied by zero. -/

/-- Model of Python's float `**` for non-negative integral exponents; other
exponents (where float `**` is a transcendental) are mapped to `0`, and no
closed statement below depends on that branch. -/
def pypow (a b : ℚ) : ℚ := if 0 ≤ b ∧ b.den = 1 then a ^ b.num.toNat else 0

/-- A weight or eligibility layer `{"layerName": ..., "data": ...}`.
`layerName = ""` models a missing/falsy name; `data = none` models a
`"data"` value that is not a list. -/
structure Layer where
  layerName : String
  data : Option (List ℚ)
deriving DecidableEq

/-- Per-layer astrocyte configuration: optional `dopamineGain` and optional
numeric `baseline` (`none` models absent or non-numeric). -/
structure AstroCfg where
  dopamineGain : Option ℚ := none
  baseline : Option ℚ := none
deriving DecidableEq

/-- The `prev_err` argument: a scalar, a mapping from layer names to floats,
or anything else (which resolves to the default baseline `0.5`). -/
inductive PrevErr where
  | scalar (q : ℚ)
  | map (m : List (String × ℚ))
  | other
deriving DecidableEq

/-- The scalar parameters of `astrocyte_modulation`, with the source's
default values. -/
structure AstroParams where
  global_error : ℚ := 1/2
  astro_by_layer : List (String × AstroCfg) := []
  default_eta : ℚ := 1/10
  prev_err : PrevErr := .scalar (1/2)
  baseline_beta : ℚ := 1/20
  base_scale : ℚ := 1
  panic_scale : ℚ := 100
  min_clamp : ℚ := 1/20
  max_clamp : ℚ := 5
  min_weight : ℚ := -10
  max_weight : ℚ := 10
  panic_exponent : ℚ := 4
  mix_exponent : ℚ := 5/2
deriving DecidableEq

/-- `elig_by_layer.get(name)`: the eligibility dict keeps, per truthy layer
name with list-valued data, the last such layer's data (later dict writes
overwrite earlier ones). -/
def elig_by_layer_get (eligibility : List Layer) (name : String) : Option (List ℚ) :=
  match eligibility.reverse.find? (fun l => l.layerName == name && l.data.isSome) with
  | some l => l.data
  | none => none

/-- The pass-through tests of the weight loop: `none` when the layer is
passed through unchanged (falsy name, non-list data, or no matching
eligibility), else the weight data paired with the eligibility data. -/
def layer_matched (eligibility : List Layer) (w : Layer) : Option (List ℚ × List ℚ) :=
  if w.layerName = "" then none
  else match w.data with
    | none => none
    | some d =>
        match elig_by_layer_get eligibility w.layerName with
        | none => none
        | some e => some (d, e)

/-- `next_baselines[layer_name] = new_base` with Python-dict semantics. -/
def dictSet (m : List (String × ℚ)) (c : String) (v : ℚ) : List (String × ℚ) :=
  if m.any (fun p => p.1 == c) then
    m.map (fun p => if p.1 == c then (p.1, v) else p)
  else m ++ [(c, v)]

/-- The per-index update parameters of one layer's weight loop. -/
structure UpdCtx where
  eta : ℚ
  centered : ℚ
  cap : ℚ
  noise_scale : ℚ
  min_weight : ℚ
  max_weight : ℚ
deriving DecidableEq

/-- The two hard-clip `if`s of the weight loop (lines 163–166 of the source):
cap at `max_weight` first, then floor at `min_weight`. -/
def hard_clip (minw maxw val : ℚ) : ℚ :=
  let v1 := if val > maxw then maxw else val
  if v1 < minw then minw else v1

/-- Scores, caps and baseline bookkeeping of one updated layer (lines
114–154 of the source): returns the weight-loop context and the layer's new
baseline. -/
def layer_update_params (fpow : ℚ → ℚ → ℚ) (p : AstroParams) (name : String) :
    UpdCtx × ℚ :=
  let cfg := ((p.astro_by_layer.find? (fun q => q.1 == name)).map Prod.snd).getD {}
  let global_score := 1 - qmax 0 (qmin 1 p.global_error)
  let final_score := match cfg.dopamineGain with
    | some ls =>
        let mix := fpow ls p.mix_exponent
        ls * (1 - mix) + global_score * mix
    | none => global_score
  let final_score := qmax 0 (qmin 1 final_score)
  let baseline := match cfg.baseline with
    | some b => b
    | none => match p.prev_err with
      | .map m => match m.find? (fun q => q.1 == name) with
        | some q => q.2
        | none => 1/2
      | .scalar q => q
      | .other => 1/2
  let failure := 1 - final_score
  let dynamic_mult := p.base_scale + fpow failure p.panic_exponent * (p.panic_scale - p.base_scale)
  let current_cap := p.min_clamp + failure * (p.max_clamp - p.min_clamp)
  let centered := (final_score - baseline) * dynamic_mult
  let new_base := baseline + p.baseline_beta * (final_score - baseline)
  (⟨p.default_eta, centered, current_cap, (1/1000) * dynamic_mult, p.min_weight, p.max_weight⟩,
   new_base)

/-- The `for i in range(n)` weight loop (`n = min(len(W), len(E))`): each
index draws one noise sample, clamps the update to the cap, applies it scaled
by eligibility, and hard-clips the weight; indices past the shorter list are
left unchanged.  Returns the new data and the advanced draw index. -/
def astro_weights (rng : Nat → ℚ) (c : UpdCtx) :
    List ℚ → List ℚ → Nat → List ℚ × Nat
  | [], _, k => ([], k)
  | w :: ws, [], k => (w :: ws, k)
  | w :: ws, e :: es, k =>
      let noise := (rng k * 2 - 1) * c.noise_scale
      let raw_delta := c.centered + noise
      let clean_delta := qmax (-c.cap) (qmin c.cap raw_delta)
      let dw := c.eta * clean_delta * e
      let r := astro_weights rng c ws es (k + 1)
      (hard_clip c.min_weight c.max_weight (w + dw) :: r.1, r.2)

/-- The `for w_layer in current_weights` loop: pass unmatched layers through
unchanged, update matched ones, threading the global draw index and the
`next_baselines` dict. -/
def astro_layers (fpow : ℚ → ℚ → ℚ) (rng : Nat → ℚ) (p : AstroParams)
    (eligibility : List Layer) :
    List Layer → Nat → List (String × ℚ) → List Layer × List (String × ℚ) × Nat
  | [], k, nb => ([], nb, k)
  | w :: rest, k, nb =>
      match layer_matched eligibility w with
      | none =>
          let r := astro_layers fpow rng p eligibility rest k nb
          (w :: r.1, r.2)
      | some de =>
          let pu := layer_update_params fpow p w.layerName
          let nb1 := dictSet nb w.layerName pu.2
          let wr := astro_weights rng pu.1 de.1 de.2 k
          let r := astro_layers fpow rng p eligibility rest wr.2 nb1
          (⟨w.layerName, some wr.1⟩ :: r.1, r.2)

/-- `astrocyte_modulation` from `ab_sdk/utils/astro.py`: returns the updated
layer list and the `next_baselines` mapping. -/
def astrocyte_modulation (fpow : ℚ → ℚ → ℚ) (rng : Nat → ℚ)
    (current_weights eligibility : List Layer) (p : AstroParams) :
    List Layer × List (String × ℚ) :=
  let r := astro_layers fpow rng p eligibility current_weights 0 []
  (r.1, r.2.1)

/-! ## Shared helper lemmas -/

theorem hard_clip_mem (minw maxw v : ℚ) (h : minw ≤ maxw) :
    minw ≤ hard_clip minw maxw v ∧ hard_clip minw maxw v ≤ maxw := by
  simp only [hard_clip]
  split_ifs <;> constructor <;> linarith

/-- The scaled, possibly inverted value of `_value_to_delta` before deadzone,
min-step and clamp processing (the claim's "value * per_step_max * gain,
after optional inversion"). -/
def pre_delta (value : ℚ) (entry : MappingEntry) : ℚ :=
  (if entry.invert then -value else value) * entry.per_step_max * entry.gain

theorem value_to_delta_eq (value : ℚ) (entry : MappingEntry) :
    value_to_delta value entry =
      if entry.deadzone ≠ 0 ∧ pyabs (pre_delta value entry) < entry.deadzone then 0
      else applyClamp entry.clamp
        (if entry.min_step ≠ 0 ∧ 0 < pyabs (pre_delta value entry) ∧
            pyabs (pre_delta value entry) < entry.min_step then
          (if pre_delta value entry > 0 then entry.min_step else -entry.min_step)
        else pre_delta value entry) := rfl

/-! ## Claim C7 -/

/-- Claim C7: for every bit sequence, `bipolarScalar` is in `{-1, 0, 1}`, it
agrees with the sign of `bipolarSplit` whenever the latter is non-zero, and it
is `0` whenever `bipolarSplit` is `0`.  (Proved for arbitrary integer bit
lists, which subsumes the claim's 0/1 sequences.) -/
theorem bipolar_scalar_matches_split_sign (bits : List ℤ) :
    (bipolar_scalar bits = -1 ∨ bipolar_scalar bits = 0 ∨ bipolar_scalar bits = 1) ∧
    (0 < bipolar_split bits → bipolar_scalar bits = 1) ∧
    (bipolar_split bits < 0 → bipolar_scalar bits = -1) ∧
    (bipolar_split bits = 0 → bipolar_scalar bits = 0) := by
  simp only [bipolar_scalar, bipolar_split]
  by_cases h1 : bits.length < 2
  · simp only [if_pos h1]
    norm_num
  · simp only [if_neg h1]
    by_cases h2 : bits.length / 2 ≤ 0
    · simp only [if_pos h2]
      norm_num
    · simp only [if_neg h2]
      rcases lt_trichotomy ((bits.take (bits.length / 2)).sum : ℤ)
          (((bits.drop (bits.length / 2)).take (bits.length / 2)).sum : ℤ) with h | h | h
      · rw [if_neg (by omega), if_pos (by omega)]
        refine ⟨Or.inl rfl, ?_, fun _ => rfl, ?_⟩
        · intro hc
          rw [Int.cast_pos] at hc
          omega
        · intro hc
          rw [Int.cast_eq_zero] at hc
          omega
      · rw [if_neg (by omega), if_neg (by omega)]
        refine ⟨Or.inr (Or.inl rfl), ?_, ?_, fun _ => rfl⟩
        · intro hc
          rw [Int.cast_pos] at hc
          omega
        · intro hc
          rw [Int.cast_lt_zero] at hc
          omega
      · rw [if_pos (by omega)]
        refine ⟨Or.inr (Or.inr rfl), fun _ => rfl, ?_, ?_⟩
        · intro hc
          rw [Int.cast_lt_zero] at hc
          omega
        · intro hc
          rw [Int.cast_eq_zero] at hc
          omega

/-- Witness for C7 at the concrete bits `[1, 0]`, where `bipolarSplit` is
positive and `bipolarScalar` is `1`. -/
theorem bipolar_scalar_matches_split_sign_w :
    (0 : ℚ) < bipolar_split [1, 0] ∧ bipolar_scalar [1, 0] = 1 :=
  ⟨by norm_num [bipolar_split],
   (bipolar_scalar_matches_split_sign [1, 0]).2.1 (by norm_num [bipolar_split])⟩

/-! ## Claim C8 -/

/-- Claim C8: in `_value_to_delta`, a positive deadzone strictly above the
scaled magnitude suppresses the delta to exactly `0.0` (no min-step floor, no
clamp); otherwise a positive `min_step` strictly above a non-zero magnitude
snaps the magnitude up to `min_step` preserving sign, with the clamp applied
last; and the clamp can reduce a delta below the min-step floor (final
conjunct: floor `5` clamped down to `1`). -/
theorem value_to_delta_order_props :
    (∀ (value : ℚ) (entry : MappingEntry),
      (0 < entry.deadzone → pyabs (pre_delta value entry) < entry.deadzone →
        value_to_delta value entry = 0) ∧
      (¬(0 < entry.deadzone ∧ pyabs (pre_delta value entry) < entry.deadzone) →
        0 < entry.min_step → 0 < pyabs (pre_delta value entry) →
        pyabs (pre_delta value entry) < entry.min_step →
        value_to_delta value entry =
          applyClamp entry.clamp
            (if 0 < pre_delta value entry then entry.min_step else -entry.min_step))) ∧
    value_to_delta 1
      { node_id := "n", channel := "c", per_step_max := 1, gain := 1,
        min_step := 5, clamp := some (0, 1) } = 1 ∧
    ({ node_id := "n", channel := "c", per_step_max := 1, gain := 1,
        min_step := 5, clamp := some (0, 1) } : MappingEntry).min_step = 5 := by
  refine ⟨fun value entry => ⟨?_, ?_⟩, ?_, rfl⟩
  · intro hdz habs
    rw [value_to_delta_eq, if_pos ⟨ne_of_gt hdz, habs⟩]
  · intro hnot hms h0 hlt
    have hcond : ¬(entry.deadzone ≠ 0 ∧ pyabs (pre_delta value entry) < entry.deadzone) := by
      rintro ⟨hne, hlt2⟩
      rcases lt_or_gt_of_ne hne with hneg | hpos
      · have := pyabs_nonneg (pre_delta value entry)
        linarith
      · exact hnot ⟨hpos, hlt2⟩
    rw [value_to_delta_eq, if_neg hcond, if_pos ⟨ne_of_gt hms, h0, hlt⟩]
  · norm_num [value_to_delta, pyabs, applyClamp, pyclamp]

/-- A mapping entry with a positive deadzone, for the C8 witness. -/
def deadzoneEntryEx : MappingEntry :=
  { node_id := "n", channel := "c", per_step_max := 1, gain := 1, deadzone := 1/100 }

/-- Witness for C8: with `deadzone = 1/100` and scaled value `1/200`, the
delta is suppressed to exactly `0`. -/
theorem value_to_delta_order_props_w :
    (0 : ℚ) < deadzoneEntryEx.deadzone ∧ value_to_delta (1/200) deadzoneEntryEx = 0 :=
  ⟨by norm_num [deadzoneEntryEx], (value_to_delta_order_props.1 (1/200) _).1
    (by norm_num [deadzoneEntryEx]) (by norm_num [deadzoneEntryEx, pre_delta, pyabs])⟩

/-! ## Claim C5 -/

/-- An already-typed `MappingEntry` with empty `node_id` and `channel`. -/
def emptyTypedEntry : MappingEntry := { node_id := "", channel := "" }

/-- Counterexample to C5 as stated: `normalize_mapping` passes already-typed
`MappingEntry` objects through without any validation, so a typed entry with
empty `node_id` and `channel` appears unchanged in the output. -/
theorem normalize_mapping_typed_unvalidated :
    normalize_mapping [.typed emptyTypedEntry] = [emptyTypedEntry] ∧
    emptyTypedEntry.node_id = "" ∧ emptyTypedEntry.channel = "" :=
  ⟨rfl, rfl, rfl⟩

/-- Claim C5 (amended): every entry `normalize_mapping` returns is either an
already-typed input entry passed through unvalidated, or was built from a
dict record and then has non-empty `node_id` and `channel`; a record whose
resolved `node_id` or `channel` is empty is dropped silently (`normalize_item`
returns `none` for it, raising no error). -/
theorem normalize_mapping_record_nonempty :
    (∀ (mapping : List MappingInput) (e : MappingEntry), e ∈ normalize_mapping mapping →
      MappingInput.typed e ∈ mapping ∨ (e.node_id ≠ "" ∧ e.channel ≠ "")) ∧
    (∀ m : RawMapping, resolve_node_id m = "" ∨ resolve_channel m = "" →
      normalize_item (.record m) = none) := by
  constructor
  · intro mapping e he
    rw [normalize_mapping, List.mem_filterMap] at he
    obtain ⟨x, hx, hnx⟩ := he
    cases x with
    | typed e2 =>
        rw [normalize_item] at hnx
        cases hnx
        exact Or.inl hx
    | other => simp [normalize_item] at hnx
    | record m =>
        right
        rw [normalize_item] at hnx
        by_cases h : resolve_node_id m = "" ∨ resolve_channel m = ""
        · rw [if_pos h] at hnx
          cases hnx
        · rw [if_neg h] at hnx
          cases hnx
          push_neg at h
          exact h
  · intro m h
    rw [normalize_item, if_pos h]

/-- Witness for C5: the empty record resolves to empty identifiers and is
dropped. -/
theorem normalize_mapping_record_nonempty_w :
    normalize_item (.record {}) = none :=
  normalize_mapping_record_nonempty.2 {} (Or.inl rfl)

/-! ## Claim C4 -/

theorem mem_keys_update (ds : List (String × ℚ)) (c nm : String) (g : ℚ → ℚ) (w : ℚ) :
    (∃ u, (nm, u) ∈ (if ds.any (fun p => p.1 == c) then
        ds.map (fun p => if p.1 == c then (p.1, g p.2) else p)
      else ds ++ [(c, w)])) ↔ (∃ u, (nm, u) ∈ ds) ∨ nm = c := by
  by_cases h : ds.any (fun p => p.1 == c)
  · rw [if_pos h]
    constructor
    · rintro ⟨u, hu⟩
      rw [List.mem_map] at hu
      obtain ⟨⟨p1, p2⟩, hp, hfp⟩ := hu
      simp only at hfp
      split at hfp
      · injection hfp with h1 h2
        exact Or.inl ⟨p2, h1 ▸ hp⟩
      · injection hfp with h1 h2
        subst h1
        subst h2
        exact Or.inl ⟨p2, hp⟩
    · rintro (⟨u, hu⟩ | rfl)
      · refine ⟨if (nm == c) = true then g u else u, ?_⟩
        rw [List.mem_map]
        refine ⟨(nm, u), hu, ?_⟩
        by_cases hc : (nm == c) = true
        · simp [hc]
        · simp [hc]
      · rw [List.any_eq_true] at h
        obtain ⟨⟨p1, p2⟩, hp, hpc⟩ := h
        simp only at hpc
        have hp1 : p1 = nm := by simpa using hpc
        refine ⟨g p2, ?_⟩
        rw [List.mem_map]
        refine ⟨(p1, p2), hp, ?_⟩
        simp only [hpc, if_true]
        rw [hp1]
  · rw [if_neg h]
    constructor
    · rintro ⟨u, hu⟩
      rw [List.mem_append] at hu
      rcases hu with hu | hu
      · exact Or.inl ⟨u, hu⟩
      · right
        simp only [List.mem_singleton, Prod.mk.injEq] at hu
        exact hu.1
    · rintro (⟨u, hu⟩ | rfl)
      · exact ⟨u, List.mem_append_left _ hu⟩
      · exact ⟨w, List.mem_append_right _ (by simp)⟩

theorem dict_add_mem_keys (ds : List (String × ℚ)) (c nm : String) (v : ℚ) :
    (∃ u, (nm, u) ∈ dict_add ds c v) ↔ (∃ u, (nm, u) ∈ ds) ∨ nm = c :=
  mem_keys_update ds c nm (fun x => x + v) v

theorem dictSet_mem_keys (ds : List (String × ℚ)) (c nm : String) (v : ℚ) :
    (∃ u, (nm, u) ∈ dictSet ds c v) ↔ (∃ u, (nm, u) ∈ ds) ∨ nm = c :=
  mem_keys_update ds c nm (fun _ => v) v

theorem fold_contribs_mem_keys (l : List (String × ℚ)) :
    ∀ (ds : List (String × ℚ)) (nm : String),
      (∃ u, (nm, u) ∈ fold_contribs ds l) ↔
        (∃ u, (nm, u) ∈ ds) ∨ (∃ u, (nm, u) ∈ l ∧ u ≠ 0) := by
  induction l with
  | nil =>
      intro ds nm
      simp [fold_contribs]
  | cons p l ih =>
      intro ds nm
      obtain ⟨c, v⟩ := p
      have hstep : fold_contribs ds ((c, v) :: l) =
          fold_contribs (if v = 0 then ds else dict_add ds c v) l := rfl
      rw [hstep, ih]
      by_cases hv : v = 0
      · subst hv
        rw [if_pos rfl]
        simp only [List.mem_cons]
        constructor
        · rintro (h | ⟨u, hu, hne⟩)
          · exact Or.inl h
          · exact Or.inr ⟨u, Or.inr hu, hne⟩
        · rintro (h | ⟨u, (hu | hu), hne⟩)
          · exact Or.inl h
          · injection hu with h1 h2
            exact absurd h2 hne
          · exact Or.inr ⟨u, hu, hne⟩
      · rw [if_neg hv, dict_add_mem_keys]
        simp only [List.mem_cons]
        constructor
        · rintro ((h | rfl) | ⟨u, hu, hne⟩)
          · exact Or.inl h
          · exact Or.inr ⟨v, Or.inl rfl, hv⟩
          · exact Or.inr ⟨u, Or.inr hu, hne⟩
        · rintro (h | ⟨u, (hu | hu), hne⟩)
          · exact Or.inl (Or.inl h)
          · injection hu with h1 h2
            exact Or.inl (Or.inr h1)
          · exact Or.inr ⟨u, hu, hne⟩

theorem fold_contribs_append (ds l1 l2 : List (String × ℚ)) :
    fold_contribs ds (l1 ++ l2) = fold_contribs (fold_contribs ds l1) l2 := by
  simp [fold_contribs, List.foldl_append]

theorem entry_fold_eq (bits : List ℤ) (entries : List MappingEntry) :
    ∀ ds, entries.foldl (entry_step bits) ds =
      fold_contribs ds
        (entries.map (fun e => (e.channel, value_to_delta (compute_value bits e) e))) := by
  induction entries with
  | nil => intro ds; rfl
  | cons e es ih =>
      intro ds
      rw [List.foldl_cons, ih]
      rfl

theorem row_step_eq (mp : List MappingEntry) (r : Row) (ds : List (String × ℚ)) :
    row_step mp ds r = fold_contribs ds (row_contribs mp r) := by
  simp only [row_step, row_contribs]
  by_cases hid : r.id = ""
  · rw [if_pos hid, if_pos hid]
    rfl
  · rw [if_neg hid, if_neg hid]
    by_cases hemp : (mp.filter (fun e => e.node_id == r.id)).isEmpty
    · rw [if_pos hemp]
      cases hb : as_bits r.bits with
      | none => rfl
      | some bits =>
          rw [List.isEmpty_iff] at hemp
          rw [hemp]
          rfl
    · rw [if_neg hemp]
      cases hb : as_bits r.bits with
      | none => rfl
      | some bits => exact entry_fold_eq bits _ ds

theorem foldl_row_step_eq (mp : List MappingEntry) (rs : List Row) :
    ∀ ds, rs.foldl (row_step mp) ds = fold_contribs ds (contribs mp rs) := by
  induction rs with
  | nil => intro ds; rfl
  | cons r rs ih =>
      intro ds
      rw [List.foldl_cons, ih, contribs, fold_contribs_append, row_step_eq]

/-- Claim C4 (amended): in every decoded Command, a channel key is present if
and only if some mapping entry contributed a non-zero delta for that channel
at that timestep.  (Individual zero deltas are skipped, but non-zero
contributions to the same channel can cancel, leaving a present key with
value `0.0` — see the counterexample.) -/
theorem decode_deltas_key_iff_contribution (rows : List Row) (mapping : List MappingInput)
    (cmd : Command) (hc : cmd ∈ decode_stream_rows rows mapping) (ch : String) :
    (∃ v, (ch, v) ∈ cmd.deltas) ↔
      (∃ v, (ch, v) ∈ contribs (normalize_mapping mapping)
          (rows.filter (fun r => r.t == some cmd.t)) ∧ v ≠ 0) := by
  simp only [decode_stream_rows, List.mem_map] at hc
  obtain ⟨t, ht, rfl⟩ := hc
  show (∃ v, (ch, v) ∈ deltas_at _ _) ↔ _
  rw [deltas_at, foldl_row_step_eq, fold_contribs_mem_keys]
  simp

theorem pystrip_bipolarSplit : pystrip "bipolarSplit" = "bipolarSplit" := rfl

/-- The output row `{"t": 0, "id": "V", "bits": [1, 0]}`. -/
def rowsEx : List Row := [⟨some 0, "V", some [some 1, some 0]⟩]

/-- A bipolarSplit mapping entry for population `"V"` on channel `"c"`. -/
def splitEntryEx : MappingEntry := { node_id := "V", channel := "c", per_step_max := 1, gain := 1 }

/-- The same entry with `invert` set, so its delta is the exact negation. -/
def splitEntryExInv : MappingEntry :=
  { node_id := "V", channel := "c", per_step_max := 1, gain := 1, invert := true }

/-- Counterexample to C4 as stated: two non-zero contributions (`+1` and `-1`
from the inverted twin entry) cancel on channel `"c"`, so the decoded Command
carries the key `"c"` with accumulated delta exactly `0.0`. -/
theorem decode_cancelling_zero_delta :
    decode_stream_rows rowsEx [.typed splitEntryEx, .typed splitEntryExInv] =
      [⟨0, [("c", 0)]⟩] := by
  norm_num [decode_stream_rows, rowsEx, splitEntryEx, splitEntryExInv, normalize_mapping,
    normalize_item, timesteps, List.insertionSort, List.orderedInsert, deltas_at, row_step,
    entry_step, as_bits, compute_value, pystrip_bipolarSplit, bipolar_split, value_to_delta,
    pyabs, applyClamp, dict_add, List.filter, List.dedup]
  norm_num [String.ext_iff, List.cons_ne_nil]

/-- Witness for C4 at a single-entry mapping: channel `"c"` is present in the
decoded Command for `t = 0`, matching the non-zero contribution `("c", 1)`. -/
theorem decode_deltas_key_iff_contribution_w :
    ∃ v, (("c" : String), v) ∈ (Command.mk 0 [("c", 1)]).deltas := by
  have hdec : decode_stream_rows rowsEx [.typed splitEntryEx] = [⟨0, [("c", 1)]⟩] := by
    norm_num [decode_stream_rows, rowsEx, splitEntryEx, normalize_mapping,
      normalize_item, timesteps, List.insertionSort, List.orderedInsert, deltas_at, row_step,
      entry_step, as_bits, compute_value, pystrip_bipolarSplit, bipolar_split, value_to_delta,
      pyabs, applyClamp, dict_add, List.filter, List.dedup]
    norm_num [String.ext_iff, List.cons_ne_nil]
  refine (decode_deltas_key_iff_contribution rowsEx [.typed splitEntryEx] ⟨0, [("c", 1)]⟩
    (by rw [hdec]; exact List.mem_singleton.mpr rfl) "c").mpr ⟨1, ?_, by norm_num⟩
  norm_num [contribs, row_contribs, rowsEx, splitEntryEx, normalize_mapping, normalize_item,
    as_bits, compute_value, pystrip_bipolarSplit, bipolar_split, value_to_delta, pyabs,
    applyClamp, List.filter, String.ext_iff]

/-! ## Claim C9 -/

/-- Replaces a row whose bits are not a list by one with the same `t` but a
falsy id (which `decode_stream_rows` skips before ever reading bits); rows
with list bits are kept as they are. -/
def neutralize (x : Row) : Row := if x.bits = none then ⟨x.t, "", none⟩ else x

theorem neutralize_t (x : Row) : (neutralize x).t = x.t := by
  unfold neutralize
  split <;> rfl

theorem row_step_neutralize (mp : List MappingEntry) (ds : List (String × ℚ)) (x : Row) :
    row_step mp ds (neutralize x) = row_step mp ds x := by
  unfold neutralize
  split
  · next h =>
      simp only [row_step, h, as_bits]
      split_ifs <;> rfl
  · rfl

theorem timesteps_map_neutralize (rows : List Row) :
    timesteps (rows.map neutralize) = timesteps rows := by
  have h : (rows.map neutralize).filterMap Row.t = rows.filterMap Row.t := by
    rw [List.filterMap_map]
    congr 1
    funext x
    simp [Function.comp, neutralize_t]
  rw [timesteps, timesteps, h]

theorem filter_t_map_neutralize (rows : List Row) (t : ℤ) :
    (rows.map neutralize).filter (fun r => r.t == some t) =
      (rows.filter (fun r => r.t == some t)).map neutralize := by
  have hp : ((fun r : Row => r.t == some t) ∘ neutralize) = (fun r : Row => r.t == some t) := by
    funext x
    simp [Function.comp, neutralize_t]
  rw [List.filter_map, hp]

theorem deltas_at_map_neutralize (mp : List MappingEntry) (rs : List Row) :
    deltas_at mp (rs.map neutralize) = deltas_at mp rs := by
  unfold deltas_at
  rw [List.foldl_map]
  congr 1
  funext ds x
  exact row_step_neutralize mp ds x

/-- Claim C9: a row whose bits value is not a list contributes nothing to any
channel (decoding is unchanged if every such row is replaced by an inert row
with the same `t`), and any row with a parsable `t` — in particular such a
row — still yields a Command for its timestep. -/
theorem decode_bits_non_list_inert (rows : List Row) (mapping : List MappingInput) :
    decode_stream_rows rows mapping = decode_stream_rows (rows.map neutralize) mapping ∧
    (∀ r ∈ rows, ∀ tv : ℤ, r.t = some tv →
      ∃ cmd ∈ decode_stream_rows rows mapping, cmd.t = tv) := by
  constructor
  · simp only [decode_stream_rows]
    rw [timesteps_map_neutralize]
    congr 1
    funext t
    rw [filter_t_map_neutralize, deltas_at_map_neutralize]
  · intro r hr tv htv
    refine ⟨⟨tv, deltas_at (normalize_mapping mapping)
      (rows.filter (fun x => x.t == some tv))⟩, ?_, rfl⟩
    simp only [decode_stream_rows]
    have h1 : tv ∈ rows.filterMap Row.t := List.mem_filterMap.mpr ⟨r, hr, htv⟩
    have h2 : tv ∈ timesteps rows := by
      rw [timesteps]
      exact ((List.perm_insertionSort _ _).mem_iff).mpr (List.mem_dedup.mpr h1)
    exact List.mem_map_of_mem _ h2

/-- A single row with `t = 3` whose bits are not a list. -/
def rows9 : List Row := [⟨some 3, "V", none⟩]

/-- Witness for C9: the bits-less row at `t = 3` still yields a Command with
`t = 3`. -/
theorem decode_bits_non_list_inert_w :
    ∃ cmd ∈ decode_stream_rows rows9 [.typed splitEntryEx], cmd.t = 3 :=
  (decode_bits_non_list_inert rows9 [.typed splitEntryEx]).2 ⟨some 3, "V", none⟩
    (by simp [rows9]) 3 rfl

/-! ## Claim C3 -/

/-- Claim C3: two calls to `build_feedback_raster` with the same seed,
deviations, `N`, `dead_zone` (and the same baseline and outcome) produce
identical output lists, whatever the state of the ambient entropy source,
because the draws come from a dedicated generator constructed from the given
seed (`mk s`), not from shared global randomness. -/
theorem build_feedback_raster_seed_determinism (mk : Int → Nat → ℚ)
    (entropy1 entropy2 : Nat → ℚ) (s : Int) (deviations : List ℚ) (N : Nat)
    (baseline : Option (List ℚ)) (outcome dead_zone : ℚ) :
    build_feedback_raster_seeded mk entropy1 (some s) deviations N baseline outcome dead_zone =
      build_feedback_raster_seeded mk entropy2 (some s) deviations N baseline outcome dead_zone :=
  rfl

/-! ## Claim C6 -/

theorem raster_fill_length (rng : Nat → ℚ) (prob sign : ℚ) :
    ∀ (n k pos : Nat) (r : List ℚ),
      ((raster_fill rng prob sign k pos n r).1).length = r.length := by
  intro n
  induction n with
  | zero => intro k pos r; rfl
  | succ m ih =>
      intro k pos r
      rw [raster_fill]
      rw [ih]
      split <;> simp

theorem raster_steps_length (rng : Nat → ℚ) (N : Nat) (dead_zone : ℚ) :
    ∀ (ds : List ℚ) (t k : Nat) (r : List ℚ),
      (raster_steps rng N dead_zone ds t k r).length = r.length := by
  intro ds
  induction ds with
  | nil => intro t k r; rfl
  | cons d dsr ih =>
      intro t k r
      rw [raster_steps]
      split
      · exact ih _ _ _
      · rw [ih]
        exact raster_fill_length rng _ _ N k (t * N) r

/-- Claim C6: `build_feedback_raster` fails exactly when a baseline is
supplied whose length differs from `len(deviations) * N`; when it does not
fail it returns a flat list of length `len(deviations) * N`. -/
theorem build_feedback_raster_shape (rng : Nat → ℚ) (deviations : List ℚ) (N : Nat)
    (baseline : Option (List ℚ)) (outcome dead_zone : ℚ) :
    ((∃ msg, build_feedback_raster rng deviations N baseline outcome dead_zone = .error msg) ↔
      ∃ b, baseline = some b ∧ b.length ≠ deviations.length * N) ∧
    (∀ r, build_feedback_raster rng deviations N baseline outcome dead_zone = .ok r →
      r.length = deviations.length * N) := by
  cases baseline with
  | none =>
      constructor
      · simp [build_feedback_raster]
      · intro r hr
        simp only [build_feedback_raster, Except.ok.injEq] at hr
        rw [← hr, raster_steps_length]
        simp
  | some b =>
      by_cases hb : b.length = deviations.length * N
      · constructor
        · simp [build_feedback_raster, hb]
        · intro r hr
          simp only [build_feedback_raster, if_neg (not_not.mpr hb),
            Except.ok.injEq] at hr
          rw [← hr, raster_steps_length, hb]
      · constructor
        · simp only [build_feedback_raster, if_pos (by simpa using hb)]
          constructor
          · intro _
            exact ⟨b, rfl, hb⟩
          · intro _
            exact ⟨_, rfl⟩
        · intro r hr
          simp only [build_feedback_raster, if_pos (by simpa using hb)] at hr
          cases hr

/-- Witness for C6: a baseline of length 1 with no deviations (expected
length 0) makes the call fail. -/
theorem build_feedback_raster_shape_w :
    ∃ msg, build_feedback_raster (fun _ => 0) [] 1 (some [0]) 0 0 = .error msg :=
  (build_feedback_raster_shape (fun _ => 0) [] 1 (some [0]) 0 0).1.mpr
    ⟨[0], rfl, by simp⟩

/-! ## Claim C1 -/

theorem astro_weights_length (rng : Nat → ℚ) (c : UpdCtx) :
    ∀ (W E : List ℚ) (k : Nat), ((astro_weights rng c W E k).1).length = W.length := by
  intro W
  induction W with
  | nil => intro E k; cases E <;> rfl
  | cons w ws ih =>
      intro E k
      cases E with
      | nil => rfl
      | cons e es =>
          simp only [astro_weights]
          rw [List.length_cons, ih]
          rfl

theorem astro_weights_bounds (rng : Nat → ℚ) (c : UpdCtx)
    (h : c.min_weight ≤ c.max_weight) :
    ∀ (W E : List ℚ) (k i : Nat) (v : ℚ), i < E.length →
      ((astro_weights rng c W E k).1)[i]? = some v →
      c.min_weight ≤ v ∧ v ≤ c.max_weight := by
  intro W
  induction W with
  | nil =>
      intro E k i v _ hv
      cases E <;> simp [astro_weights] at hv
  | cons w ws ih =>
      intro E k i v hi hv
      cases E with
      | nil => simp at hi
      | cons e es =>
          simp only [astro_weights] at hv
          cases i with
          | zero =>
              rw [List.getElem?_cons_zero] at hv
              cases hv
              exact hard_clip_mem _ _ _ h
          | succ j =>
              rw [List.getElem?_cons_succ] at hv
              exact ih es (k + 1) j v (by simpa using hi) hv

theorem astro_weights_tail (rng : Nat → ℚ) (c : UpdCtx) :
    ∀ (W E : List ℚ) (k i : Nat), E.length ≤ i →
      ((astro_weights rng c W E k).1)[i]? = W[i]? := by
  intro W
  induction W with
  | nil => intro E k i _; cases E <;> rfl
  | cons w ws ih =>
      intro E k i hi
      cases E with
      | nil => rfl
      | cons e es =>
          cases i with
          | zero => simp at hi
          | succ j =>
              simp only [astro_weights, List.getElem?_cons_succ]
              exact ih es (k + 1) j (by simpa using hi)

theorem astro_layers_nth (fpow : ℚ → ℚ → ℚ) (rng : Nat → ℚ) (p : AstroParams)
    (el : List Layer) :
    ∀ (cw : List Layer) (k : Nat) (nb : List (String × ℚ)) (i : Nat) (w : Layer),
      cw[i]? = some w →
      (layer_matched el w = none →
        ((astro_layers fpow rng p el cw k nb).1)[i]? = some w) ∧
      (∀ d e, layer_matched el w = some (d, e) →
        ∃ k0, ((astro_layers fpow rng p el cw k nb).1)[i]? =
          some ⟨w.layerName,
            some ((astro_weights rng (layer_update_params fpow p w.layerName).1 d e k0).1)⟩) := by
  intro cw
  induction cw with
  | nil => intro k nb i w hi; simp at hi
  | cons w0 rest ih =>
      intro k nb i w hi
      cases i with
      | zero =>
          rw [List.getElem?_cons_zero] at hi
          cases hi
          cases hm : layer_matched el w0 with
          | none =>
              constructor
              · intro _
                simp only [astro_layers, hm, List.getElem?_cons_zero]
              · intro d e hde
                cases hde
          | some de =>
              constructor
              · intro hn
                cases hn
              · intro d e hde
                injection hde with h2
                subst h2
                refine ⟨k, ?_⟩
                simp only [astro_layers, hm, List.getElem?_cons_zero]
      | succ j =>
          rw [List.getElem?_cons_succ] at hi
          cases hm : layer_matched el w0 with
          | none =>
              have := ih k nb j w hi
              constructor
              · intro hn
                simp only [astro_layers, hm, List.getElem?_cons_succ]
                exact (this.1) hn
              · intro d e hde
                obtain ⟨k0, hk0⟩ := (this.2) d e hde
                refine ⟨k0, ?_⟩
                simp only [astro_layers, hm, List.getElem?_cons_succ]
                exact hk0
          | some de =>
              have := ih ((astro_weights rng (layer_update_params fpow p w0.layerName).1
                de.1 de.2 k).2) (dictSet nb w0.layerName
                (layer_update_params fpow p w0.layerName).2) j w hi
              constructor
              · intro hn
                simp only [astro_layers, hm, List.getElem?_cons_succ]
                exact (this.1) hn
              · intro d e hde
                obtain ⟨k0, hk0⟩ := (this.2) d e hde
                refine ⟨k0, ?_⟩
                simp only [astro_layers, hm, List.getElem?_cons_succ]
                exact hk0

/-- Claim C1 (amended): provided `min_weight ≤ max_weight`, every weight at
an updated position (a layer with truthy name, list data and a matching
eligibility layer, at an index below the eligibility length) lies in
`[min_weight, max_weight]`; but unmatched layers are passed through unchanged
and positions beyond the matched prefix keep their input values, so those may
lie outside the bounds (see the counterexample). -/
theorem astro_updated_weight_bounds (fpow : ℚ → ℚ → ℚ) (rng : Nat → ℚ)
    (cw el : List Layer) (p : AstroParams) (hw : p.min_weight ≤ p.max_weight)
    (i : Nat) (w : Layer) (hi : cw[i]? = some w) :
    (layer_matched el w = none →
      ((astrocyte_modulation fpow rng cw el p).1)[i]? = some w) ∧
    (∀ d e, layer_matched el w = some (d, e) →
      ∃ W2, ((astrocyte_modulation fpow rng cw el p).1)[i]? = some ⟨w.layerName, some W2⟩ ∧
        W2.length = d.length ∧
        (∀ j v, j < e.length → W2[j]? = some v → p.min_weight ≤ v ∧ v ≤ p.max_weight) ∧
        (∀ j, e.length ≤ j → W2[j]? = d[j]?)) := by
  have h := astro_layers_nth fpow rng p el cw 0 [] i w hi
  constructor
  · exact h.1
  · intro d e hde
    obtain ⟨k0, hk0⟩ := h.2 d e hde
    refine ⟨(astro_weights rng (layer_update_params fpow p w.layerName).1 d e k0).1,
      hk0, ?_, ?_, ?_⟩
    · exact astro_weights_length rng _ d e k0
    · intro j v hj hv
      exact astro_weights_bounds rng _ hw d e k0 j v hj hv
    · intro j hj
      exact astro_weights_tail rng _ d e k0 j hj

/-- Counterexample to C1 as stated: a weight layer with no matching
eligibility layer is passed through unchanged, so its weight `100` appears in
the output even though `max_weight` is the default `10`. -/
theorem astro_passthrough_out_of_range :
    (astrocyte_modulation pypow (fun _ => 0) [⟨"a", some [100]⟩] [] {}).1 =
      [⟨"a", some [100]⟩] ∧
    ({} : AstroParams).max_weight < 100 := by
  constructor
  · rfl
  · show (10 : ℚ) < 100
    norm_num

/-- Witness for C1 at a one-weight layer matched by a one-entry eligibility
layer under the default parameters. -/
theorem astro_updated_weight_bounds_w :
    ∃ W2, ((astrocyte_modulation pypow (fun _ => 0)
        [⟨"a", some [0]⟩] [⟨"a", some [1]⟩] {}).1)[0]? = some ⟨"a", some W2⟩ ∧
      W2.length = 1 ∧
      (∀ j v, j < 1 → W2[j]? = some v → (-10 : ℚ) ≤ v ∧ v ≤ 10) ∧
      (∀ j, 1 ≤ j → W2[j]? = (([0] : List ℚ))[j]?) :=
  (astro_updated_weight_bounds pypow (fun _ => 0) [⟨"a", some [0]⟩] [⟨"a", some [1]⟩] {}
    (by norm_num : (-10 : ℚ) ≤ 10) 0 ⟨"a", some [0]⟩ rfl).2 [0] [1] rfl

/-! ## Claim C2 -/

/-- Claim C2 (amended): `astrocyte_modulation` is deterministic only given
the ambient global random stream — two calls with identical explicit
arguments and identical global draw sequences return identical results.  (The
source has no seed parameter; its noise comes from the process-global
`random.random`, so identical arguments alone do not suffice — see the
counterexample.) -/
theorem astro_deterministic_given_stream (fpow : ℚ → ℚ → ℚ) (rng1 rng2 : Nat → ℚ)
    (cw el : List Layer) (p : AstroParams) (h : ∀ n, rng1 n = rng2 n) :
    astrocyte_modulation fpow rng1 cw el p = astrocyte_modulation fpow rng2 cw el p := by
  rw [funext h]

/-- Witness for C2 (amended) at a concrete layer pair and stream. -/
theorem astro_deterministic_given_stream_w :
    astrocyte_modulation pypow (fun _ => 0) [⟨"a", some [0]⟩] [⟨"a", some [1]⟩]
        { panic_scale := 1 } =
      astrocyte_modulation pypow (fun _ => 0) [⟨"a", some [0]⟩] [⟨"a", some [1]⟩]
        { panic_scale := 1 } :=
  astro_deterministic_given_stream pypow (fun _ => 0) (fun _ => 0)
    [⟨"a", some [0]⟩] [⟨"a", some [1]⟩] { panic_scale := 1 } (fun _ => rfl)

/-- Counterexample to C2 as stated: with identical explicit arguments but two
different states of the global random stream (draws `0` versus `1/2`, as two
successive calls would observe), `astrocyte_modulation` returns different
weights (`-1/10000` versus `0`).  The parameters set `panic_scale =
base_scale = 1`, so the abstracted float power never influences the result. -/
theorem astro_global_rng_dependence :
    astrocyte_modulation pypow (fun _ => 0) [⟨"a", some [0]⟩] [⟨"a", some [1]⟩]
        { panic_scale := 1 } ≠
      astrocyte_modulation pypow (fun _ => (1:ℚ)/2) [⟨"a", some [0]⟩] [⟨"a", some [1]⟩]
        { panic_scale := 1 } := by
  intro h
  have h1 := congrArg (fun r => r.1) h
  norm_num [astrocyte_modulation, astro_layers, layer_matched, elig_by_layer_get,
    layer_update_params, astro_weights, hard_clip, dictSet, qmax, qmin, pyabs,
    List.find?, PrevErr.scalar] at h1
  norm_num [String.ext_iff, astro_weights, hard_clip, qmax, qmin] at h1

/-! ## Claim C10 -/

theorem elig_by_layer_get_some_iff (el : List Layer) (name : String) :
    (∃ e, elig_by_layer_get el name = some e) ↔
      ∃ l ∈ el, l.layerName = name ∧ ∃ dl, l.data = some dl := by
  unfold elig_by_layer_get
  cases hf : el.reverse.find? (fun l => l.layerName == name && l.data.isSome) with
  | none =>
      constructor
      · rintro ⟨e, he⟩
        cases he
      · rintro ⟨l, hl, hn, dl, hdl⟩
        have := List.find?_eq_none.mp hf l (List.mem_reverse.mpr hl)
        simp [hn, hdl] at this
  | some l =>
      have hp := List.find?_some hf
      have hm := List.mem_reverse.mp (List.mem_of_find?_eq_some hf)
      simp only [Bool.and_eq_true, beq_iff_eq] at hp
      obtain ⟨hn, hd⟩ := hp
      constructor
      · rintro ⟨e, he⟩
        exact ⟨l, hm, hn, e, he⟩
      · rintro ⟨l2, _, _, _, _⟩
        exact Option.isSome_iff_exists.mp hd

theorem layer_matched_ne_none (el : List Layer) (w : Layer) :
    layer_matched el w ≠ none ↔
      (w.layerName ≠ "" ∧ (∃ d, w.data = some d) ∧
        ∃ l ∈ el, l.layerName = w.layerName ∧ ∃ dl, l.data = some dl) := by
  constructor
  · intro hne
    unfold layer_matched at hne
    by_cases h1 : w.layerName = ""
    · rw [if_pos h1] at hne
      exact absurd rfl hne
    · rw [if_neg h1] at hne
      cases hd : w.data with
      | none =>
          rw [hd] at hne
          exact absurd rfl hne
      | some d =>
          rw [hd] at hne
          cases he : elig_by_layer_get el w.layerName with
          | none =>
              rw [he] at hne
              exact absurd rfl hne
          | some e =>
              exact ⟨h1, ⟨d, rfl⟩, (elig_by_layer_get_some_iff el w.layerName).mp ⟨e, he⟩⟩
  · rintro ⟨h1, ⟨d, hd⟩, hex⟩
    unfold layer_matched
    rw [if_neg h1, hd]
    obtain ⟨e, he⟩ := (elig_by_layer_get_some_iff el w.layerName).mpr hex
    rw [he]
    simp

theorem astro_layers_keys (fpow : ℚ → ℚ → ℚ) (rng : Nat → ℚ) (p : AstroParams)
    (el : List Layer) :
    ∀ (cw : List Layer) (k : Nat) (nb : List (String × ℚ)) (name : String),
      (∃ v, (name, v) ∈ (astro_layers fpow rng p el cw k nb).2.1) ↔
        (∃ v, (name, v) ∈ nb) ∨
          ∃ w ∈ cw, w.layerName = name ∧ layer_matched el w ≠ none := by
  intro cw
  induction cw with
  | nil =>
      intro k nb name
      simp [astro_layers]
  | cons w0 rest ih =>
      intro k nb name
      cases hm : layer_matched el w0 with
      | none =>
          simp only [astro_layers, hm]
          rw [ih]
          simp only [List.mem_cons]
          constructor
          · rintro (h | ⟨w, hw, hn, hne⟩)
            · exact Or.inl h
            · exact Or.inr ⟨w, Or.inr hw, hn, hne⟩
          · rintro (h | ⟨w, (rfl | hw), hn, hne⟩)
            · exact Or.inl h
            · exact absurd hm hne
            · exact Or.inr ⟨w, hw, hn, hne⟩
      | some de =>
          simp only [astro_layers, hm]
          rw [ih, dictSet_mem_keys]
          simp only [List.mem_cons]
          constructor
          · rintro ((h | h) | ⟨w, hw, hn, hne⟩)
            · exact Or.inl h
            · exact Or.inr ⟨w0, Or.inl rfl, h.symm, by simp [hm]⟩
            · exact Or.inr ⟨w, Or.inr hw, hn, hne⟩
          · rintro (h | ⟨w, (rfl | hw), hn, hne⟩)
            · exact Or.inl (Or.inl h)
            · exact Or.inl (Or.inr hn.symm)
            · exact Or.inr ⟨w, hw, hn, hne⟩

/-- Claim C10: `next_baselines` has a key exactly for the names of weight
layers that were updated — a non-empty layer name, list-valued data, and an
eligibility layer of the same name with list-valued data; layers passed
through unchanged contribute no key. -/
theorem astro_next_baselines_keys (fpow : ℚ → ℚ → ℚ) (rng : Nat → ℚ)
    (cw el : List Layer) (p : AstroParams) (name : String) :
    (∃ v, (name, v) ∈ (astrocyte_modulation fpow rng cw el p).2) ↔
      (name ≠ "" ∧ (∃ w ∈ cw, w.layerName = name ∧ ∃ d, w.data = some d) ∧
        ∃ l ∈ el, l.layerName = name ∧ ∃ dl, l.data = some dl) := by
  have hkeys := astro_layers_keys fpow rng p el cw 0 [] name
  constructor
  · intro hx
    rcases hkeys.mp hx with ⟨v, hv⟩ | ⟨w, hw, hn, hne⟩
    · simp at hv
    · obtain ⟨hn1, hd, hel⟩ := (layer_matched_ne_none el w).mp hne
      subst hn
      exact ⟨hn1, ⟨w, hw, rfl, hd⟩, hel⟩
  · rintro ⟨hne, ⟨w, hw, hn, d, hd⟩, l, hl, hln, dl, hdl⟩
    apply hkeys.mpr
    right
    refine ⟨w, hw, hn, (layer_matched_ne_none el w).mpr ⟨?_, ⟨d, hd⟩, ?_⟩⟩
    · rw [hn]
      exact hne
    · rw [hn]
      exact ⟨l, hl, hln, dl, hdl⟩

/-- Witness for C10: the updated layer `"a"` contributes a baseline key. -/
theorem astro_next_baselines_keys_w :
    ∃ v, (("a" : String), v) ∈ (astrocyte_modulation pypow (fun _ => 0)
      [⟨"a", some [0]⟩] [⟨"a", some [1]⟩] { panic_scale := 1 }).2 :=
  (astro_next_baselines_keys pypow (fun _ => 0) [⟨"a", some [0]⟩] [⟨"a", some [1]⟩]
      { panic_scale := 1 } "a").mpr
    ⟨by decide, ⟨⟨"a", some [0]⟩, List.mem_singleton.mpr rfl, rfl, ⟨[0], rfl⟩⟩,
      ⟨⟨"a", some [1]⟩, List.mem_singleton.mpr rfl, rfl, ⟨[1], rfl⟩⟩⟩
